import Mathlib

/-!
Shallow embedding of the SuperLink task-brokering state engine
(`src/rust/src/state/postgres.rs` together with the driver / fleet handlers in
`src/rust/src/handler/`), used to check the natural-language specification
against the code.

Modelling conventions:
* The relational tables are Lean lists of rows, in insertion order.
* `f64` timestamps / durations are modelled as `Int` (the claims only use
  ordering and addition, never float rounding).
* `DateTime<Utc>` values are `Int` ticks; `Utc::now().to_rfc3339()` is
  modelled by `rfc3339 : Int → String`, whose only relevant properties are
  determinism and non-emptiness.
* The two task tables carry a ghost serial (`Nat`) along each row.  The
  serial is assigned at insertion and never changed by any operation; it
  gives rows an identity across updates, which is what "this task
  instruction" refers to in delivery claims.  Erasing the first component
  of every pair yields exactly the source's tables.
* Rust `panic!` / `unimplemented!` is modelled by `Option` (`none` = abort);
  database unique-key violations by `Except DbError`.
-/

/-- The internal node reference, `model::handler::Node` (`Id(i64)` or
`Anonymous`). -/
inductive HandlerNode where
  | Id : Int → HandlerNode
  | Anonymous : HandlerNode
  deriving Repr, DecidableEq

/-- One row of `task_ins` / `task_res` (`state::models::TaskInstruction`,
`state::models::TaskResult`; the two Rust structs have identical fields). -/
structure TaskRow where
  id : String
  group_id : String
  run_id : Int
  producer_anonymous : Bool
  producer_node_id : Int
  consumer_anonymous : Bool
  consumer_node_id : Int
  created_at : Int
  delivered_at : String
  pushed_at : Int
  ttl : Int
  ancestry : String
  task_type : String
  recordset : List Nat
  deriving Repr, DecidableEq

/-- One row of the `node` table (`state::models::Node`). -/
structure NodeRow where
  id : Int
  online_until : Int
  ping_interval : Int
  deriving Repr, DecidableEq

/-- The database state: tables `run`, `node`, `task_ins`, `task_res`.
`next` is the ghost serial counter for task rows. -/
structure Store where
  run : List Int
  node : List NodeRow
  task_ins : List (Nat × TaskRow)
  task_res : List (Nat × TaskRow)
  next : Nat
  deriving Repr, DecidableEq

def emptyStore : Store := ⟨[], [], [], [], 0⟩

/-- Database-level failure: unique-key (primary key) violation on insert. -/
inductive DbError where
  | conflict
  deriving Repr, DecidableEq

/-- Model of `Utc::now().to_rfc3339()`: a non-empty textual timestamp. -/
def rfc3339 (t : Int) : String := "@" ++ toString t

/-- Attach fresh ghost serials `n, n+1, …` to a batch of inserted rows. -/
def withSerials : Nat → List TaskRow → List (Nat × TaskRow)
  | _, [] => []
  | n, r :: rs => (n, r) :: withSerials (n + 1) rs

/-- `State::insert_task_instructions`: empty input is an immediate success;
otherwise a single bulk `INSERT` that fails wholesale on any primary-key
conflict (duplicate id within the batch or with an existing row). -/
def insert_task_instructions (s : Store) (rows : List TaskRow) : Except DbError Store :=
  if rows.isEmpty then .ok s
  else if !(decide (rows.map (fun r => r.id)).Nodup
        && rows.all (fun r => !(s.task_ins.any (fun p => p.2.id == r.id)))) then
    .error .conflict
  else
    .ok { s with task_ins := s.task_ins ++ withSerials s.next rows,
                 next := s.next + rows.length }

/-- The consumer clause of the pull query in `State::task_instructions`:
identified consumer → `consumer_anonymous = false AND consumer_node_id = id`;
anonymous consumer → `consumer_anonymous = true AND consumer_node_id = 0`. -/
def consumerMatches (node : HandlerNode) (r : TaskRow) : Bool :=
  match node with
  | .Id i => !r.consumer_anonymous && r.consumer_node_id == i
  | .Anonymous => r.consumer_anonymous && r.consumer_node_id == 0

/-- Stamping a pulled row: `set(delivered_at.eq(now.to_rfc3339()))`. -/
def stampRow (stamp : String) (r : TaskRow) : TaskRow :=
  { r with delivered_at := stamp }

/-- The `SELECT` of the pull transaction: up to `limit` rows with matching
consumer clause and `delivered_at = ""`. -/
def pullInsSelected (s : Store) (node : HandlerNode) (limit : Nat) : List (Nat × TaskRow) :=
  (s.task_ins.filter (fun p => consumerMatches node p.2 && p.2.delivered_at == "")).take limit

/-- The `UPDATE … SET delivered_at` loop of the pull transaction: every row
whose id was selected is stamped (ids are unique by primary key). -/
def stampSelectedIns (s : Store) (node : HandlerNode) (limit : Nat) (t : Int) :
    List (Nat × TaskRow) :=
  s.task_ins.map (fun p =>
    if ((pullInsSelected s node limit).map (fun q => q.2.id)).contains p.2.id
    then (p.1, stampRow (rfc3339 t) p.2) else p)

/-- The transaction of `State::task_instructions`: select up to `limit` ids
with matching consumer clause and `delivered_at = ""`, then update each
selected row (by primary key, unique) to `delivered_at = now`, returning the
updated rows.  Early return when nothing is selected. -/
def task_instructions_txn (s : Store) (node : HandlerNode) (limit : Nat) (t : Int) :
    Store × List (Nat × TaskRow) :=
  if ((pullInsSelected s node limit).map (fun p => p.2.id)).isEmpty then (s, [])
  else
    ({ s with task_ins := stampSelectedIns s node limit t },
     (pullInsSelected s node limit).map (fun p => (p.1, stampRow (rfc3339 t) p.2)))

/-- `State::insert_task_result`: single-row insert, primary-key conflict on
duplicate id. -/
def insert_task_result (s : Store) (r : TaskRow) : Except DbError Store :=
  if s.task_res.any (fun p => p.2.id == r.id) then .error .conflict
  else .ok { s with task_res := s.task_res ++ [(s.next, r)], next := s.next + 1 }

/-- Diesel `AsChangeset` for `TaskResult`: sets every column except the
primary key `id` to the changeset row's values. -/
def applyChangeset (c : TaskRow) (r : TaskRow) : TaskRow :=
  { c with id := r.id }

/-- The update loop of `State::task_results`.  For each selected row the code
runs `diesel::update(task_res::table).set(task_result)` — an `UPDATE` with no
`WHERE` clause, so the changeset is applied to every row of `task_res` — and
`get_result` returns the first row of the `RETURNING` set. -/
def pullResLoop (stamp : String) (tbl : List (Nat × TaskRow)) (sel : List (Nat × TaskRow))
    (acc : List (Nat × TaskRow)) : List (Nat × TaskRow) × List (Nat × TaskRow) :=
  match sel with
  | [] => (tbl, acc)
  | p :: rest =>
    let c := stampRow stamp p.2
    let tbl' := tbl.map (fun q => (q.1, applyChangeset c q.2))
    pullResLoop stamp tbl' rest (acc ++ [tbl'.headD (p.1, c)])

/-- The `SELECT` of the result-pull transaction: `task_res` rows with
`ancestry ∈ ids` and `delivered_at = ""`, optionally limited. -/
def pullResSelected (s : Store) (ids : List String) (limit : Option Nat) :
    List (Nat × TaskRow) :=
  match limit with
  | some l =>
    (s.task_res.filter (fun p => decide (p.2.ancestry ∈ ids) && p.2.delivered_at == "")).take l
  | none => s.task_res.filter (fun p => decide (p.2.ancestry ∈ ids) && p.2.delivered_at == "")

/-- The transaction of `State::task_results`: select, early-return if nothing
matched, otherwise run the update loop.  The follow-up queries that compute
offline nodes only read (their result is bound to an unused variable), so they
have no effect on the state or the returned rows. -/
def task_results_txn (s : Store) (ids : List String) (limit : Option Nat) (t : Int) :
    Store × List (Nat × TaskRow) :=
  if (pullResSelected s ids limit).isEmpty then (s, [])
  else
    ({ s with task_res := (pullResLoop (rfc3339 t) s.task_res (pullResSelected s ids limit) []).1 },
     (pullResLoop (rfc3339 t) s.task_res (pullResSelected s ids limit) []).2)

/-- `From<(i64, bool)> for HandlerNode` in `state/postgres.rs`: the pair
`(id, true)` with `id ≠ 0` hits the `panic!` arm (`none`). -/
def nodeFromPair (p : Int × Bool) : Option HandlerNode :=
  if p.2 = false then some (.Id p.1)
  else if p.1 = 0 then some .Anonymous
  else none

/-- The response row `model::handler::TaskInstructionOrResult`
(`PullTaskInstructionsResult` / `PullTaskResultResponse`). -/
structure TaskInstructionOrResult where
  id : String
  group_id : String
  run_id : Int
  producer : HandlerNode
  consumer : HandlerNode
  created_at : Int
  delivered_at : String
  pushed_at : Int
  ttl : Int
  ancestry : String
  task_type : String
  recordset : List Nat
  deriving Repr, DecidableEq

/-- The per-row mapping at the end of `State::task_instructions` /
`State::task_results`: `(node_id, anonymous).into()` may panic. -/
def toPullResponse (r : TaskRow) : Option TaskInstructionOrResult :=
  match nodeFromPair (r.producer_node_id, r.producer_anonymous),
        nodeFromPair (r.consumer_node_id, r.consumer_anonymous) with
  | some produced, some consumed =>
    some { id := r.id, group_id := r.group_id, run_id := r.run_id,
           producer := produced, consumer := consumed,
           created_at := r.created_at, delivered_at := r.delivered_at,
           pushed_at := r.pushed_at, ttl := r.ttl, ancestry := r.ancestry,
           task_type := r.task_type, recordset := r.recordset }
  | _, _ => none

/-- `into_iter().map(...).collect()` over the fallible row mapping. -/
def collectResponses : List TaskRow → Option (List TaskInstructionOrResult)
  | [] => some []
  | r :: rest =>
    match toPullResponse r, collectResponses rest with
    | some x, some xs => some (x :: xs)
    | _, _ => none

/-- Full `State::task_instructions`: transaction, then the response mapping
(which panics on a malformed stored node pair). -/
def task_instructions (s : Store) (node : HandlerNode) (limit : Nat) (t : Int) :
    Option (Store × List TaskInstructionOrResult) :=
  match collectResponses (((task_instructions_txn s node limit t).2).map Prod.snd) with
  | some resp => some ((task_instructions_txn s node limit t).1, resp)
  | none => none

/-- Full `State::task_results`.  Empty `ids` returns immediately.  After the
transaction, when a limit was supplied and the number of returned rows differs
from it, the code reaches `unimplemented!()` — the commented-out
node-unavailable synthesis — and aborts (`none`).  Finally the response
mapping runs. -/
def task_results (s : Store) (ids : List String) (limit : Option Nat) (t : Int) :
    Option (Store × List TaskInstructionOrResult) :=
  if ids.isEmpty then some (s, [])
  else
    match limit with
    | some l =>
      if ((task_results_txn s ids limit t).2).length ≠ l then none
      else
        match collectResponses (((task_results_txn s ids limit t).2).map Prod.snd) with
        | some resp => some ((task_results_txn s ids limit t).1, resp)
        | none => none
    | none =>
      match collectResponses (((task_results_txn s ids limit t).2).map Prod.snd) with
      | some resp => some ((task_results_txn s ids limit t).1, resp)
      | none => none

/-- `State::delete_tasks`: empty input is a no-op; otherwise one transaction
deleting from `task_ins` the rows with `delivered_at ≠ ''` whose id is in the
subquery `SELECT ancestry FROM task_res WHERE ancestry IN ids AND
delivered_at <> ''`, then deleting from `task_res` the rows with
`ancestry ∈ ids` and `delivered_at ≠ ''`. -/
def delete_tasks (s : Store) (ids : List String) : Store :=
  if ids.isEmpty then s
  else
    let ancestrySet :=
      (s.task_res.filter (fun p => decide (p.2.ancestry ∈ ids) && !(p.2.delivered_at == "")))
        |>.map (fun p => p.2.ancestry)
    { s with
      task_ins := s.task_ins.filter
        (fun p => !(!(p.2.delivered_at == "") && decide (p.2.id ∈ ancestrySet))),
      task_res := s.task_res.filter
        (fun p => !(decide (p.2.ancestry ∈ ids) && !(p.2.delivered_at == ""))) }

/-- `State::insert_node`: primary-key conflict on duplicate id. -/
def insert_node (s : Store) (n : NodeRow) : Except DbError Store :=
  if s.node.any (fun m => m.id == n.id) then .error .conflict
  else .ok { s with node := s.node ++ [n] }

/-- `State::delete_node`: delete by id (no-op when absent). -/
def delete_node (s : Store) (i : Int) : Store :=
  { s with node := s.node.filter (fun m => !(m.id == i)) }

/-- `State::nodes`: count the `run` rows with the given id; if zero return
empty, otherwise the ids of all node rows with `online_until ≥ timestamp`. -/
def nodes (s : Store) (run_id : Int) (timestamp : Int) : List Int :=
  if (s.run.filter (fun i => i == run_id)).length == 0 then []
  else (s.node.filter (fun n => timestamp ≤ n.online_until)).map (fun n => n.id)

/-- `State::insert_run`: primary-key conflict on duplicate id. -/
def insert_run (s : Store) (run_id : Int) : Except DbError Store :=
  if s.run.any (fun i => i == run_id) then .error .conflict
  else .ok { s with run := s.run ++ [run_id] }

/-- `State::update_ping`: `diesel::update(node).set(ping)` — an `UPDATE` of
the whole `node` table (no `WHERE` clause); the derived changeset sets
`online_until` and `ping_interval` (all columns except the primary key `id`)
on every row.  Returns `false` iff zero rows were updated. -/
def update_ping (s : Store) (ping : NodeRow) : Store × Bool :=
  let updated := s.node.map
    (fun n => { n with online_until := ping.online_until,
                       ping_interval := ping.ping_interval })
  ({ s with node := updated }, !(s.node.length == 0))

/-- `DriverHandler::create_run`: generate one id (modelled as the argument,
the generator yields a non-zero random `i64`), insert it, propagate any error
with `?`. -/
def create_run (s : Store) (genId : Int) : Except DbError (Store × Int) :=
  match insert_run s genId with
  | .ok s' => .ok (s', genId)
  | .error e => .error e

/-- `FleetHandler::create_node`: one generated id, `online_until = now + Δ`,
`ping_interval = Δ` (a non-negative `Duration`), inserted with `?`-propagated
errors. -/
def create_node (s : Store) (genId : Int) (now : Int) (delta : Nat) :
    Except DbError (Store × Int) :=
  match insert_node s { id := genId, online_until := now + (delta : Int),
                        ping_interval := (delta : Int) } with
  | .ok s' => .ok (s', genId)
  | .error e => .error e

/-- `DriverHandler::pull_task_results`: `task_results(ids, None)` followed by
`delete_tasks(ids)` (two independent transactions; a panic in the first
prevents the delete). -/
def pull_task_results (s : Store) (ids : List String) (t : Int) :
    Option (Store × List TaskInstructionOrResult) :=
  match task_results s ids none t with
  | some (s', resp) => some (delete_tasks s' ids, resp)
  | none => none

/-- `FleetHandler::pull_task_instructions`: delegates to the Store with a
hard-coded limit of 1. -/
def pull_task_instructions (s : Store) (node : HandlerNode) (t : Int) :
    Option (Store × List TaskInstructionOrResult) :=
  task_instructions s node 1 t

/-- `services::common::validate_node`: `(anonymous, node_id)` is rejected when
`(false, 0)` or `(true, id ≠ 0)`. -/
def validate_node (anonymous : Bool) (node_id : Int) : Bool :=
  match anonymous, node_id with
  | false, i => !(i == 0)
  | true, i => i == 0

/-- The trace alphabet: one constructor per Store operation (the operations a
request sequence can perform against the state engine). -/
inductive Op where
  | opInsertIns (rows : List TaskRow)
  | opPullIns (node : HandlerNode) (limit : Nat) (t : Int)
  | opInsertRes (row : TaskRow)
  | opPullRes (ids : List String) (limit : Option Nat) (t : Int)
  | opDeleteTasks (ids : List String)
  | opInsertNode (n : NodeRow)
  | opDeleteNode (i : Int)
  | opInsertRun (i : Int)
  | opUpdatePing (n : NodeRow)
  deriving Repr, DecidableEq

/-- One Store operation applied to the state.  The second component is the
list of task instructions delivered by this operation: non-empty only for
`opPullIns` (whose transaction returns the stamped rows).  A failed insert
leaves the state unchanged (the statement is rejected wholesale). -/
def execG (s : Store) : Op → Store × List (Nat × TaskRow)
  | .opInsertIns rows =>
    match insert_task_instructions s rows with
    | .ok s2 => (s2, [])
    | .error _ => (s, [])
  | .opPullIns node limit t => task_instructions_txn s node limit t
  | .opInsertRes r =>
    match insert_task_result s r with
    | .ok s2 => (s2, [])
    | .error _ => (s, [])
  | .opPullRes ids limit t => ((task_results_txn s ids limit t).1, [])
  | .opDeleteTasks ids => (delete_tasks s ids, [])
  | .opInsertNode n =>
    match insert_node s n with
    | .ok s2 => (s2, [])
    | .error _ => (s, [])
  | .opDeleteNode i => (delete_node s i, [])
  | .opInsertRun i =>
    match insert_run s i with
    | .ok s2 => (s2, [])
    | .error _ => (s, [])
  | .opUpdatePing n => ((update_ping s n).1, [])

/-- Run a sequence of Store operations, collecting each operation's delivered
instructions. -/
def execTrace : Store → List Op → Store × List (List (Nat × TaskRow))
  | s, [] => (s, [])
  | s, op :: rest =>
    let step := execG s op
    let tail := execTrace step.1 rest
    (tail.1, step.2 :: tail.2)

/-- Two delivery outputs are disjoint when no row identity (ghost serial)
occurs in both. -/
def SerialsDisj (a b : List (Nat × TaskRow)) : Prop :=
  ∀ p ∈ a, ∀ q ∈ b, p.1 ≠ q.1

/-- Well-formedness of a state: ghost serials are below the counter and
pairwise distinct in each task table.  Holds for `emptyStore` and is
preserved by every operation (`execG_WF`). -/
def WF (s : Store) : Prop :=
  (∀ p ∈ s.task_ins, p.1 < s.next) ∧ (∀ p ∈ s.task_res, p.1 < s.next) ∧
  (s.task_ins.map Prod.fst).Nodup ∧ (s.task_res.map Prod.fst).Nodup

instance (s : Store) : Decidable (WF s) := by
  unfold WF; infer_instance

/-- Invariant carried along a trace for the at-most-once-delivery proof:
serials in the instruction table and in past outputs are below the counter,
serials in the table are distinct, every row whose serial was already
delivered is marked delivered, and past outputs are pairwise disjoint. -/
structure DeliveryInv (s : Store) (outs : List (List (Nat × TaskRow))) : Prop where
  ins_lt : ∀ p ∈ s.task_ins, p.1 < s.next
  ins_nodup : (s.task_ins.map Prod.fst).Nodup
  outs_lt : ∀ o ∈ outs, ∀ p ∈ o, p.1 < s.next
  outs_delivered : ∀ o ∈ outs, ∀ p ∈ o, ∀ q ∈ s.task_ins, q.1 = p.1 → q.2.delivered_at ≠ ""
  outs_disj : outs.Pairwise SerialsDisj

/-- A task row whose stored `(node_id, anonymous)` pairs are well-formed
(the property ingress validation enforces). -/
def nodePairsOk (r : TaskRow) : Prop :=
  (r.producer_anonymous = true → r.producer_node_id = 0) ∧
  (r.consumer_anonymous = true → r.consumer_node_id = 0)

instance (r : TaskRow) : Decidable (nodePairsOk r) := by
  unfold nodePairsOk; infer_instance

/-! Concrete fixtures used by the counterexample and witness theorems. -/

/-- An in-flight instruction addressed to node 7 (which is offline: the node
table of `storeOffline` is empty). -/
def offlineIns : TaskRow :=
  ⟨"T", "g", 1, true, 0, false, 7, 0, "d", 0, 1, "", "tt", []⟩

def storeOffline : Store := ⟨[], [], [(0, offlineIns)], [], 1⟩

def nodeA : NodeRow := ⟨1, 10, 5⟩
def nodeB : NodeRow := ⟨2, 20, 6⟩

def storeTwoNodes : Store := ⟨[], [nodeA, nodeB], [], [], 0⟩

/-- A deliverable result row (ancestry "A", undelivered). -/
def resSel : TaskRow := ⟨"R1", "g1", 1, false, 5, false, 6, 0, "", 0, 1, "A", "tt", []⟩

/-- A result row outside any request (ancestry "B", already delivered). -/
def resOther : TaskRow := ⟨"R2", "g2", 2, false, 7, false, 8, 0, "x", 0, 1, "B", "tt", [9]⟩

def storeTwoRes : Store := ⟨[], [], [], [(0, resSel), (1, resOther)], 2⟩

def storeRunFive : Store := ⟨[5], [], [], [], 0⟩

/-- A delivered instruction together with its delivered result. -/
def insDone : TaskRow := ⟨"T1", "g", 1, false, 1, false, 2, 0, "d1", 0, 1, "", "tt", []⟩
def insPending : TaskRow := ⟨"T2", "g", 1, false, 1, false, 2, 0, "", 0, 1, "", "tt", []⟩
def resDone : TaskRow := ⟨"R1", "g", 1, false, 2, false, 1, 0, "d2", 0, 1, "T1", "tt", []⟩

def storeLifecycle : Store := ⟨[], [], [(0, insDone), (1, insPending)], [(2, resDone)], 3⟩

/-- C2: with the instruction's target node absent from the node table (node 7
does not appear in `storeOffline.node`), the Driver's pull returns no
synthesised "node unavailable" result: the response is empty and the store is
unchanged.  The synthesis step is unreachable because the driver handler
passes no limit, and its body is `unimplemented!()`. -/
theorem pull_task_results_no_synthesis :
    pull_task_results storeOffline ["T"] 0 = some (storeOffline, []) := by decide

/-- C3: `update_ping` runs an UPDATE without a WHERE clause.  Pinging the
nonexistent node 3 overwrites `online_until` and `ping_interval` of both
existing rows (ids 1 and 2) and returns `true`, although the claim requires
that only the row with the matching id change and that the call return
`false` for a nonexistent node. -/
theorem update_ping_updates_all_rows :
    update_ping storeTwoNodes { id := 3, online_until := 99, ping_interval := 7 } =
      ({ run := [], node := [{ id := 1, online_until := 99, ping_interval := 7 },
                             { id := 2, online_until := 99, ping_interval := 7 }],
         task_ins := [], task_res := [], next := 0 }, true) := by decide

/-- C4: pulling the result with ancestry "A" also rewrites the non-selected
row `resOther` (serial 1): every column except the primary key takes the
selected row's values, so `group_id`, `ancestry`, `run_id`, … of the
unrelated row are destroyed. -/
theorem task_results_clobbers_unselected :
    (task_results_txn storeTwoRes ["A"] none 0).1.task_res =
      [(0, stampRow (rfc3339 0) resSel),
       (1, { stampRow (rfc3339 0) resSel with id := "R2" })] := by decide

/-- C7 counterexample: a duplicate-id conflict in `create_run` is surfaced to
the caller as an error instead of being retried with a fresh id; likewise for
`create_node`. -/
theorem create_conflict_surfaces :
    create_run storeRunFive 5 = .error .conflict ∧
    create_node storeTwoNodes 1 0 10 = .error .conflict := ⟨rfl, rfl⟩

theorem mem_ancestrySet (s : Store) (ids : List String) (x : String) :
    (x ∈ (s.task_res.filter
        (fun p => decide (p.2.ancestry ∈ ids) && !(p.2.delivered_at == ""))).map
        (fun p => p.2.ancestry))
    ↔ x ∈ ids ∧ ∃ q ∈ s.task_res, q.2.ancestry = x ∧ q.2.delivered_at ≠ "" := by
  simp only [List.mem_map, List.mem_filter, Bool.and_eq_true, decide_eq_true_iff,
    Bool.not_eq_true', beq_eq_false_iff_ne, ne_eq]
  constructor
  · rintro ⟨q, ⟨hq, hin, hnd⟩, rfl⟩
    exact ⟨hin, q, hq, rfl, hnd⟩
  · rintro ⟨hx, q, hq, rfl, hnd⟩
    exact ⟨q, ⟨hq, hx, hnd⟩, rfl⟩

/-- C5: `delete_tasks` removes exactly the instructions whose id is requested,
already delivered, and covered by a delivered result with matching ancestry,
and exactly the result rows with requested ancestry and non-empty
`delivered_at`; runs, nodes and the serial counter are untouched, and empty
input is a successful no-op. -/
theorem delete_tasks_exact (s : Store) (ids : List String) :
    (delete_tasks s ids).task_ins = s.task_ins.filter
      (fun p => !(decide (p.2.id ∈ ids) && (!(p.2.delivered_at == "")
        && decide (∃ q ∈ s.task_res, q.2.ancestry = p.2.id ∧ q.2.delivered_at ≠ "")))) ∧
    (delete_tasks s ids).task_res = s.task_res.filter
      (fun p => !(decide (p.2.ancestry ∈ ids) && !(p.2.delivered_at == ""))) ∧
    (delete_tasks s ids).run = s.run ∧
    (delete_tasks s ids).node = s.node ∧
    (delete_tasks s ids).next = s.next ∧
    delete_tasks s [] = s := by
  cases ids with
  | nil =>
    refine ⟨?_, ?_, rfl, rfl, rfl, rfl⟩
    · simp [delete_tasks]
    · simp [delete_tasks]
  | cons a as =>
    refine ⟨?_, ?_, rfl, rfl, rfl, rfl⟩
    · show (s.task_ins.filter _) = _
      refine List.filter_congr ?_
      intro p hp
      have hm := mem_ancestrySet s (a :: as) p.2.id
      have hB : (decide (p.2.id ∈ (s.task_res.filter
          (fun q => decide (q.2.ancestry ∈ (a :: as)) && !(q.2.delivered_at == ""))).map
          (fun q => q.2.ancestry)) : Bool)
          = (decide (p.2.id ∈ (a :: as)) &&
             decide (∃ q ∈ s.task_res, q.2.ancestry = p.2.id ∧ q.2.delivered_at ≠ "")) := by
        rw [decide_eq_decide.mpr hm, Bool.decide_and]
      rw [hB]
      generalize (!(p.2.delivered_at == "")) = b1
      generalize (decide (p.2.id ∈ (a :: as)) : Bool) = b2
      generalize (decide (∃ q ∈ s.task_res, q.2.ancestry = p.2.id ∧ q.2.delivered_at ≠ "") : Bool) = b3
      cases b1 <;> cases b2 <;> cases b3 <;> rfl
    · rfl

/-- C6: `delete_tasks` is idempotent — applying it twice with the same id set
yields the same store as applying it once. -/
theorem delete_tasks_idempotent (s : Store) (ids : List String) :
    delete_tasks (delete_tasks s ids) ids = delete_tasks s ids := by
  cases ids with
  | nil => rfl
  | cons a as =>
    have hres : (delete_tasks s (a :: as)).task_res
        = s.task_res.filter
          (fun p => !(decide (p.2.ancestry ∈ (a :: as)) && !(p.2.delivered_at == ""))) := rfl
    have hsub : ∀ p ∈ (delete_tasks s (a :: as)).task_res,
        (!(decide (p.2.ancestry ∈ (a :: as)) && !(p.2.delivered_at == ""))) = true := by
      intro p hp
      rw [hres] at hp
      exact (List.mem_filter.mp hp).2
    show (if (a :: as).isEmpty then _ else _) = _
    rw [if_neg (by simp)]
    have hset : ((delete_tasks s (a :: as)).task_res.filter
        (fun p => decide (p.2.ancestry ∈ (a :: as)) && !(p.2.delivered_at == ""))) = [] := by
      refine List.filter_eq_nil_iff.mpr ?_
      intro p hp
      have h1 := hsub p hp
      rw [Bool.not_eq_true'] at h1
      intro hc
      rw [h1] at hc
      exact Bool.noConfusion hc
    rw [hset]
    simp only [List.map_nil]
    have hres2 : ((delete_tasks s (a :: as)).task_res.filter
        (fun p => !(decide (p.2.ancestry ∈ (a :: as)) && !(p.2.delivered_at == "")))) =
        (delete_tasks s (a :: as)).task_res :=
      List.filter_eq_self.mpr hsub
    have hins2 : ((delete_tasks s (a :: as)).task_ins.filter
        (fun p => !(!(p.2.delivered_at == "") &&
          decide (p.2.id ∈ ([] : List String))))) =
        (delete_tasks s (a :: as)).task_ins := by
      refine List.filter_eq_self.mpr ?_
      intro p hp
      simp
    rw [hres2, hins2]

/-- C7 (amended): on a duplicate-id conflict, `create_run` and `create_node`
surface the conflict error to the caller; the generated id is used exactly
once per call and there is no retry — a successful call inserts precisely the
single generated id. -/
theorem create_handlers_surface_conflict (s : Store) (g now2 : Int) (delta : Nat) :
    (g ∈ s.run → create_run s g = .error .conflict) ∧
    (g ∉ s.run → create_run s g = .ok ({ s with run := s.run ++ [g] }, g)) ∧
    ((∃ m ∈ s.node, m.id = g) → create_node s g now2 delta = .error .conflict) ∧
    ((∀ m ∈ s.node, m.id ≠ g) → create_node s g now2 delta =
      .ok ({ s with node := s.node ++ [⟨g, now2 + (delta : Int), (delta : Int)⟩] }, g)) := by
  refine ⟨?_, ?_, ?_, ?_⟩
  · intro h
    have ha : s.run.any (fun i => i == g) = true :=
      List.any_eq_true.mpr ⟨g, h, by simp⟩
    simp [create_run, insert_run, ha]
  · intro h
    have ha : s.run.any (fun i => i == g) = false := by
      rw [List.any_eq_false]
      intro i hi
      simp only [beq_iff_eq]
      rintro rfl
      exact h hi
    simp [create_run, insert_run, ha]
  · rintro ⟨m, hm, hid⟩
    have ha : s.node.any (fun m => m.id == g) = true :=
      List.any_eq_true.mpr ⟨m, hm, by simp [hid]⟩
    simp [create_node, insert_node, ha]
  · intro h
    have ha : s.node.any (fun m => m.id == g) = false := by
      rw [List.any_eq_false]
      intro m hm
      simp only [beq_iff_eq]
      exact h m hm
    simp [create_node, insert_node, ha]

theorem create_handlers_surface_conflict_witness :
    create_run storeRunFive 5 = .error .conflict ∧
    create_run storeRunFive 6 = .ok ({ storeRunFive with run := storeRunFive.run ++ [6] }, 6) ∧
    create_node storeTwoNodes 1 0 10 = .error .conflict ∧
    create_node storeTwoNodes 3 0 10 =
      .ok ({ storeTwoNodes with node := storeTwoNodes.node ++ [⟨3, 10, 10⟩] }, 3) :=
  ⟨(create_handlers_surface_conflict storeRunFive 5 0 10).1 (by decide),
   (create_handlers_surface_conflict storeRunFive 6 0 10).2.1 (by decide),
   (create_handlers_surface_conflict storeTwoNodes 1 0 10).2.2.1 ⟨nodeA, by decide, by decide⟩,
   (create_handlers_surface_conflict storeTwoNodes 3 0 10).2.2.2 (by decide)⟩

/-- C8: `nodes` returns the empty set when the run is unknown and otherwise
exactly the ids of node rows with `online_until ≥ now`; a node created with
ping interval Δ (for an existing run) is listed at creation time and is no
longer listed at any time strictly later than `now + Δ` without a
heartbeat. -/
theorem list_nodes_liveness (s : Store) (run2 ts genId now2 t2 : Int) (delta : Nat) (s2 : Store) :
    (run2 ∉ s.run → nodes s run2 ts = []) ∧
    (run2 ∈ s.run →
      ∀ i, i ∈ nodes s run2 ts ↔ ∃ n ∈ s.node, n.id = i ∧ ts ≤ n.online_until) ∧
    (create_node s genId now2 delta = .ok (s2, genId) → run2 ∈ s2.run →
      genId ∈ nodes s2 run2 now2) ∧
    (create_node s genId now2 delta = .ok (s2, genId) → now2 + delta < t2 →
      genId ∉ nodes s2 run2 t2) := by
  refine ⟨?_, ?_, ?_, ?_⟩
  · intro h
    have hf : (s.run.filter (fun i => i == run2)) = [] := by
      refine List.filter_eq_nil_iff.mpr ?_
      intro i hi
      simp only [beq_iff_eq]
      rintro rfl
      exact h hi
    simp [nodes, hf]
  · intro h i
    have hmem : run2 ∈ s.run.filter (fun i => i == run2) :=
      List.mem_filter.mpr ⟨h, by simp⟩
    have hne : ((s.run.filter (fun i => i == run2)).length == 0) = false := by
      refine beq_eq_false_iff_ne.mpr ?_
      intro h0
      rw [List.length_eq_zero] at h0
      rw [h0] at hmem
      exact List.not_mem_nil _ hmem
    simp only [nodes, hne, Bool.false_eq_true, if_false, List.mem_map, List.mem_filter,
      decide_eq_true_iff]
    constructor
    · rintro ⟨n, ⟨hn, hle⟩, rfl⟩
      exact ⟨n, hn, rfl, hle⟩
    · rintro ⟨n, hn, rfl, hle⟩
      exact ⟨n, ⟨hn, hle⟩, rfl⟩
  · intro hok hrun
    by_cases ha : s.node.any (fun m => m.id == genId)
    · simp [create_node, insert_node, ha] at hok
    · simp only [create_node, insert_node, ha, Bool.false_eq_true, if_false] at hok
      have hs2 : s2 = { s with node := s.node ++
          [⟨genId, now2 + (delta : Int), (delta : Int)⟩] } := by
        cases hok
        rfl
      subst hs2
      have hmem : run2 ∈ s.run.filter (fun i => i == run2) :=
        List.mem_filter.mpr ⟨hrun, by simp⟩
      have hne : ((s.run.filter (fun i => i == run2)).length == 0) = false := by
        refine beq_eq_false_iff_ne.mpr ?_
        intro h0
        rw [List.length_eq_zero] at h0
        rw [h0] at hmem
        exact List.not_mem_nil _ hmem
      simp only [nodes, hne, Bool.false_eq_true, if_false, List.mem_map, List.mem_filter,
        decide_eq_true_iff]
      refine ⟨⟨genId, now2 + (delta : Int), (delta : Int)⟩, ⟨?_, ?_⟩, rfl⟩
      · exact List.mem_append_right _ (by simp)
      · show now2 ≤ now2 + (delta : Int)
        omega
  · intro hok hlt hmem
    by_cases ha : s.node.any (fun m => m.id == genId)
    · simp [create_node, insert_node, ha] at hok
    · simp only [create_node, insert_node, ha, Bool.false_eq_true, if_false] at hok
      have hs2 : s2 = { s with node := s.node ++
          [⟨genId, now2 + (delta : Int), (delta : Int)⟩] } := by
        cases hok
        rfl
      subst hs2
      have ha2 : ∀ m ∈ s.node, m.id ≠ genId := by
        intro m hm hc
        exact ha (List.any_eq_true.mpr ⟨m, hm, by simp [hc]⟩)
      unfold nodes at hmem
      by_cases hc : ((({ s with node := s.node ++
          [⟨genId, now2 + (delta : Int), (delta : Int)⟩] } : Store).run.filter
            (fun i => i == run2)).length == 0)
      · rw [if_pos hc] at hmem
        exact List.not_mem_nil _ hmem
      · rw [if_neg hc] at hmem
        simp only [List.mem_map, List.mem_filter, decide_eq_true_iff] at hmem
        obtain ⟨n, ⟨hn, hle⟩, hid⟩ := hmem
        rcases List.mem_append.mp hn with hn1 | hn2
        · exact ha2 n hn1 hid
        · have : n = ⟨genId, now2 + (delta : Int), (delta : Int)⟩ := by
            simpa using hn2
          subst this
          have hle2 : t2 ≤ now2 + (delta : Int) := hle
          omega

def storeRunNine : Store := ⟨[9], [nodeA], [], [], 0⟩

def storeAfterCreate : Store :=
  { storeRunNine with node := storeRunNine.node ++ [⟨42, 110, 10⟩] }

theorem list_nodes_liveness_witness :
    nodes storeRunNine 7 0 = [] ∧
    ((1 : Int) ∈ nodes storeRunNine 9 5 ↔
      ∃ n ∈ storeRunNine.node, n.id = 1 ∧ (5 : Int) ≤ n.online_until) ∧
    (42 : Int) ∈ nodes storeAfterCreate 9 100 ∧
    (42 : Int) ∉ nodes storeAfterCreate 9 111 :=
  ⟨(list_nodes_liveness storeRunNine 7 0 0 0 0 0 storeRunNine).1 (by decide),
   (list_nodes_liveness storeRunNine 9 5 0 0 0 0 storeRunNine).2.1 (by decide) 1,
   (list_nodes_liveness storeRunNine 9 0 42 100 0 10 storeAfterCreate).2.2.1 rfl (by decide),
   (list_nodes_liveness storeRunNine 9 0 42 100 111 10 storeAfterCreate).2.2.2 rfl (by decide)⟩

theorem stampRow_nodePairsOk (st : String) (r : TaskRow) :
    nodePairsOk (stampRow st r) ↔ nodePairsOk r := by
  simp [stampRow, nodePairsOk]

theorem applyChangeset_nodePairsOk (c r : TaskRow) :
    nodePairsOk (applyChangeset c r) ↔ nodePairsOk c := by
  simp [applyChangeset, nodePairsOk]

theorem toPullResponse_isSome (r : TaskRow) (h : nodePairsOk r) :
    (toPullResponse r).isSome := by
  obtain ⟨hp, hc⟩ := h
  have h1 : (nodeFromPair (r.producer_node_id, r.producer_anonymous)).isSome := by
    unfold nodeFromPair
    cases hb : r.producer_anonymous
    · simp
    · simp [hp hb]
  have h2 : (nodeFromPair (r.consumer_node_id, r.consumer_anonymous)).isSome := by
    unfold nodeFromPair
    cases hb : r.consumer_anonymous
    · simp
    · simp [hc hb]
  obtain ⟨x, hx⟩ := Option.isSome_iff_exists.mp h1
  obtain ⟨y, hy⟩ := Option.isSome_iff_exists.mp h2
  unfold toPullResponse
  rw [hx, hy]
  rfl

theorem collectResponses_isSome (l : List TaskRow)
    (h : ∀ r ∈ l, (toPullResponse r).isSome) : (collectResponses l).isSome := by
  induction l with
  | nil => simp [collectResponses]
  | cons a tl ih =>
    obtain ⟨x, hx⟩ := Option.isSome_iff_exists.mp (h a (List.mem_cons_self a tl))
    obtain ⟨xs, hxs⟩ :=
      Option.isSome_iff_exists.mp (ih (fun r hr => h r (List.mem_cons_of_mem _ hr)))
    simp [collectResponses, hx, hxs]

theorem pullInsSelected_subset (s : Store) (nd : HandlerNode) (limit : Nat) :
    ∀ p ∈ pullInsSelected s nd limit, p ∈ s.task_ins := by
  intro p hp
  exact List.mem_of_mem_filter (List.mem_of_mem_take hp)

theorem pullResSelected_subset (s : Store) (ids : List String) (limit : Option Nat) :
    ∀ p ∈ pullResSelected s ids limit, p ∈ s.task_res := by
  intro p hp
  cases limit with
  | some l => exact List.mem_of_mem_filter (List.mem_of_mem_take hp)
  | none => exact List.mem_of_mem_filter hp

theorem task_instructions_txn_rows_ok (s : Store) (nd : HandlerNode) (limit : Nat) (t : Int)
    (h : ∀ p ∈ s.task_ins, nodePairsOk p.2) :
    ∀ p ∈ (task_instructions_txn s nd limit t).2, nodePairsOk p.2 := by
  intro p hp
  unfold task_instructions_txn at hp
  split at hp
  · exact absurd hp (List.not_mem_nil p)
  · obtain ⟨q, hq, hqe⟩ := List.mem_map.mp hp
    have hq2 : q ∈ s.task_ins := pullInsSelected_subset s nd limit q hq
    rw [← hqe]
    exact (stampRow_nodePairsOk _ _).mpr (h q hq2)

theorem pullResLoop_outs_ok (stamp : String) (sel : List (Nat × TaskRow)) :
    ∀ (tbl acc : List (Nat × TaskRow)),
    (∀ p ∈ acc, nodePairsOk p.2) → (∀ p ∈ sel, nodePairsOk p.2) →
    ∀ p ∈ (pullResLoop stamp tbl sel acc).2, nodePairsOk p.2 := by
  induction sel with
  | nil =>
    intro tbl acc hacc hsel p hp
    exact hacc p hp
  | cons q rest ih =>
    intro tbl acc hacc hsel p hp
    rw [pullResLoop] at hp
    refine ih _ _ ?_ (fun x hx => hsel x (List.mem_cons_of_mem _ hx)) p hp
    intro x hx
    rcases List.mem_append.mp hx with h1 | h2
    · exact hacc x h1
    · have hq := hsel q (List.mem_cons_self _ _)
      have hq2 : nodePairsOk (stampRow stamp q.2) := (stampRow_nodePairsOk _ _).mpr hq
      simp only [List.mem_singleton] at h2
      subst h2
      cases tbl with
      | nil => exact hq2
      | cons z zs =>
        show nodePairsOk (applyChangeset (stampRow stamp q.2) z.2)
        exact (applyChangeset_nodePairsOk _ _).mpr hq2

theorem task_results_txn_rows_ok (s : Store) (ids : List String) (limit : Option Nat) (t : Int)
    (h : ∀ p ∈ s.task_res, nodePairsOk p.2) :
    ∀ p ∈ (task_results_txn s ids limit t).2, nodePairsOk p.2 := by
  intro p hp
  unfold task_results_txn at hp
  split at hp
  · exact absurd hp (List.not_mem_nil p)
  · refine pullResLoop_outs_ok _ _ _ _ ?_ ?_ p hp
    · intro x hx
      exact absurd hx (List.not_mem_nil x)
    · intro x hx
      exact h x (pullResSelected_subset s ids limit x hx)

/-- C10: the stored-pair conversion aborts exactly for a malformed pair
`(id ≠ 0, anonymous = true)`; ingress validation (`validate_node`) rules such
pairs out, and under that invariant on the stored rows both pull operations
complete without aborting. -/
theorem node_pair_conversion_safe (s : Store) (nd : HandlerNode) (limit : Nat) (t : Int)
    (ids : List String) :
    (∀ (i : Int) (b : Bool), nodeFromPair (i, b) = none ↔ b = true ∧ i ≠ 0) ∧
    (∀ (b : Bool) (i : Int), validate_node b i = true → b = true → i = 0) ∧
    ((∀ p ∈ s.task_ins, nodePairsOk p.2) → (task_instructions s nd limit t).isSome) ∧
    ((∀ p ∈ s.task_res, nodePairsOk p.2) → (task_results s ids none t).isSome) := by
  refine ⟨?_, ?_, ?_, ?_⟩
  · intro i b
    cases b
    · simp [nodeFromPair]
    · by_cases h : i = 0 <;> simp [nodeFromPair, h]
  · intro b i hv hb
    subst hb
    simpa [validate_node] using hv
  · intro h
    have hrows := task_instructions_txn_rows_ok s nd limit t h
    have hcoll : (collectResponses
        (((task_instructions_txn s nd limit t).2).map Prod.snd)).isSome := by
      refine collectResponses_isSome _ ?_
      intro r hr
      obtain ⟨p, hp, hpe⟩ := List.mem_map.mp hr
      exact hpe ▸ toPullResponse_isSome _ (hrows p hp)
    obtain ⟨resp, hresp⟩ := Option.isSome_iff_exists.mp hcoll
    unfold task_instructions
    rw [hresp]
    rfl
  · intro h
    unfold task_results
    by_cases hi : ids.isEmpty
    · rw [if_pos hi]
      rfl
    · rw [if_neg hi]
      have hrows := task_results_txn_rows_ok s ids none t h
      have hcoll : (collectResponses
          (((task_results_txn s ids none t).2).map Prod.snd)).isSome := by
        refine collectResponses_isSome _ ?_
        intro r hr
        obtain ⟨p, hp, hpe⟩ := List.mem_map.mp hr
        exact hpe ▸ toPullResponse_isSome _ (hrows p hp)
      obtain ⟨resp, hresp⟩ := Option.isSome_iff_exists.mp hcoll
      rw [hresp]
      rfl

/-- Witness for C10: both pulls complete on concrete well-formed stores. -/
theorem node_pair_conversion_safe_witness :
    (task_instructions storeOffline (HandlerNode.Id 7) 1 0).isSome ∧
    (task_results storeTwoRes ["A"] none 0).isSome :=
  ⟨(node_pair_conversion_safe storeOffline (HandlerNode.Id 7) 1 0 ["A"]).2.2.1 (by decide),
   (node_pair_conversion_safe storeTwoRes (HandlerNode.Id 7) 1 0 ["A"]).2.2.2 (by decide)⟩

theorem rfc3339_ne_empty (t : Int) : rfc3339 t ≠ "" := by
  intro h
  have hlen := congrArg String.length h
  rw [rfc3339, String.length_append] at hlen
  have h1 : ("@" : String).length = 1 := rfl
  have h0 : ("" : String).length = 0 := rfl
  rw [h1, h0] at hlen
  omega

theorem withSerials_serial_bounds (rows : List TaskRow) :
    ∀ (k : Nat), ∀ p ∈ withSerials k rows, k ≤ p.1 ∧ p.1 < k + rows.length := by
  induction rows with
  | nil =>
    intro k p hp
    exact absurd hp (List.not_mem_nil p)
  | cons r rs ih =>
    intro k p hp
    rw [withSerials] at hp
    rcases List.mem_cons.mp hp with rfl | hmem
    · refine ⟨le_refl _, ?_⟩
      simp
    · have := ih (k + 1) p hmem
      simp only [List.length_cons]
      omega

theorem mem_eq_of_fst_nodup {l : List (Nat × TaskRow)} (h : (l.map Prod.fst).Nodup)
    {n : Nat} {r r2 : TaskRow} (h1 : (n, r) ∈ l) (h2 : (n, r2) ∈ l) : r2 = r := by
  have := List.inj_on_of_nodup_map h h2 h1 rfl
  exact congrArg Prod.snd this

theorem preserved_of_sub (l l2 : List (Nat × TaskRow)) (hnd : (l.map Prod.fst).Nodup)
    (hsub : ∀ p ∈ l2, p ∈ l) :
    ∀ n r, (n, r) ∈ l → r.delivered_at ≠ "" →
      ∀ r2, (n, r2) ∈ l2 → r2.delivered_at ≠ "" := by
  intro n r hr hne r2 hr2
  rw [mem_eq_of_fst_nodup hnd hr (hsub _ hr2)]
  exact hne

theorem preserved_of_append (l new : List (Nat × TaskRow)) (bound : Nat)
    (hnd : (l.map Prod.fst).Nodup) (hlt : ∀ p ∈ l, p.1 < bound)
    (hnew : ∀ p ∈ new, bound ≤ p.1) :
    ∀ n r, (n, r) ∈ l → r.delivered_at ≠ "" →
      ∀ r2, (n, r2) ∈ l ++ new → r2.delivered_at ≠ "" := by
  intro n r hr hne r2 hr2
  rcases List.mem_append.mp hr2 with h2 | h2
  · rw [mem_eq_of_fst_nodup hnd hr h2]
    exact hne
  · have hb := hnew _ h2
    have hl := hlt _ hr
    simp only at hb
    omega

theorem stampSelectedIns_mem (s : Store) (nd : HandlerNode) (limit : Nat) (t : Int) :
    ∀ q ∈ stampSelectedIns s nd limit t, ∃ p ∈ s.task_ins,
      q = p ∨ q = (p.1, stampRow (rfc3339 t) p.2) := by
  intro q hq
  obtain ⟨p, hp, hpe⟩ := List.mem_map.mp hq
  refine ⟨p, hp, ?_⟩
  by_cases hc : ((pullInsSelected s nd limit).map (fun q => q.2.id)).contains p.2.id
  · right
    rw [← hpe, if_pos hc]
  · left
    rw [← hpe, if_neg hc]

theorem pullResLoop_tbl_delivered (stamp : String) (sel : List (Nat × TaskRow)) :
    ∀ (tbl acc : List (Nat × TaskRow)), sel ≠ [] →
      ∀ p ∈ (pullResLoop stamp tbl sel acc).1, p.2.delivered_at = stamp := by
  induction sel with
  | nil =>
    intro tbl acc h
    exact absurd rfl h
  | cons q rest ih =>
    intro tbl acc _ p hp
    rw [pullResLoop] at hp
    by_cases hr : rest = []
    · subst hr
      rw [pullResLoop] at hp
      obtain ⟨z, hz, hze⟩ := List.mem_map.mp hp
      rw [← hze]
      rfl
    · exact ih _ _ hr p hp

/-- C9: once a `task_ins` or `task_res` row carries a non-empty
`delivered_at`, no Store operation resets it to the empty string: after any
single operation the row (identified by its ghost serial) is either gone
(deleted) or still has a non-empty `delivered_at`. -/
theorem delivered_at_monotone (s : Store) (op : Op) (h : WF s) :
    (∀ n r, (n, r) ∈ s.task_ins → r.delivered_at ≠ "" →
      ∀ r2, (n, r2) ∈ (execG s op).1.task_ins → r2.delivered_at ≠ "") ∧
    (∀ n r, (n, r) ∈ s.task_res → r.delivered_at ≠ "" →
      ∀ r2, (n, r2) ∈ (execG s op).1.task_res → r2.delivered_at ≠ "") := by
  obtain ⟨hins_lt, hres_lt, hins_nd, hres_nd⟩ := h
  have keep_ins := preserved_of_sub s.task_ins s.task_ins hins_nd (fun p hp => hp)
  have keep_res := preserved_of_sub s.task_res s.task_res hres_nd (fun p hp => hp)
  cases op with
  | opInsertIns rows =>
    by_cases h1 : rows.isEmpty
    · simp only [execG, insert_task_instructions, h1, if_true]
      exact ⟨keep_ins, keep_res⟩
    · by_cases h2 : (!(decide (rows.map (fun r => r.id)).Nodup
          && rows.all (fun r => !(s.task_ins.any (fun p => p.2.id == r.id))))) = true
      · simp only [execG, insert_task_instructions, h1, Bool.false_eq_true, if_false, h2, if_true]
        exact ⟨keep_ins, keep_res⟩
      · simp only [execG, insert_task_instructions, h1, Bool.false_eq_true, if_false, h2]
        refine ⟨?_, keep_res⟩
        exact preserved_of_append s.task_ins (withSerials s.next rows) s.next hins_nd hins_lt
          (fun p hp => (withSerials_serial_bounds rows s.next p hp).1)
  | opPullIns nd limit t =>
    by_cases h1 : ((pullInsSelected s nd limit).map (fun p => p.2.id)).isEmpty
    · simp only [execG, task_instructions_txn, h1, if_true]
      exact ⟨keep_ins, keep_res⟩
    · simp only [execG, task_instructions_txn, h1, Bool.false_eq_true, if_false]
      refine ⟨?_, keep_res⟩
      intro n r hr hne r2 hr2
      obtain ⟨p, hp, hpe⟩ := stampSelectedIns_mem s nd limit t _ hr2
      rcases hpe with he | he
      · have hpn : p = (n, r2) := he.symm
        subst hpn
        rw [mem_eq_of_fst_nodup hins_nd hr hp]
        exact hne
      · have h1p : p.1 = n := by
          have := congrArg Prod.fst he
          exact this.symm
        have h2p : r2 = stampRow (rfc3339 t) p.2 := congrArg Prod.snd he
        rw [h2p]
        show (rfc3339 t) ≠ ""
        exact rfc3339_ne_empty t
  | opInsertRes r =>
    by_cases h1 : s.task_res.any (fun p => p.2.id == r.id)
    · simp only [execG, insert_task_result, h1, if_true]
      exact ⟨keep_ins, keep_res⟩
    · simp only [execG, insert_task_result, h1, Bool.false_eq_true, if_false]
      refine ⟨keep_ins, ?_⟩
      refine preserved_of_append s.task_res [(s.next, r)] s.next hres_nd hres_lt ?_
      intro p hp
      simp only [List.mem_singleton] at hp
      subst hp
      exact le_refl _
  | opPullRes ids limit t =>
    by_cases h1 : (pullResSelected s ids limit).isEmpty
    · simp only [execG, task_results_txn, h1, if_true]
      exact ⟨keep_ins, keep_res⟩
    · simp only [execG, task_results_txn, h1, Bool.false_eq_true, if_false]
      refine ⟨keep_ins, ?_⟩
      intro n r hr hne r2 hr2
      have hsel : pullResSelected s ids limit ≠ [] := by
        intro hc
        rw [hc] at h1
        exact h1 rfl
      have := pullResLoop_tbl_delivered (rfc3339 t) (pullResSelected s ids limit)
        s.task_res [] hsel (n, r2) hr2
      rw [this]
      exact rfc3339_ne_empty t
  | opDeleteTasks ids =>
    by_cases h1 : ids.isEmpty
    · simp only [execG, delete_tasks, h1, if_true]
      exact ⟨keep_ins, keep_res⟩
    · simp only [execG, delete_tasks, h1, Bool.false_eq_true, if_false]
      constructor
      · exact preserved_of_sub s.task_ins _ hins_nd (fun p hp => List.mem_of_mem_filter hp)
      · exact preserved_of_sub s.task_res _ hres_nd (fun p hp => List.mem_of_mem_filter hp)
  | opInsertNode n =>
    by_cases h1 : s.node.any (fun m => m.id == n.id)
    · simp only [execG, insert_node, h1, if_true]
      exact ⟨keep_ins, keep_res⟩
    · simp only [execG, insert_node, h1, Bool.false_eq_true, if_false]
      exact ⟨keep_ins, keep_res⟩
  | opDeleteNode i =>
    simp only [execG, delete_node]
    exact ⟨keep_ins, keep_res⟩
  | opInsertRun i =>
    by_cases h1 : s.run.any (fun j => j == i)
    · simp only [execG, insert_run, h1, if_true]
      exact ⟨keep_ins, keep_res⟩
    · simp only [execG, insert_run, h1, Bool.false_eq_true, if_false]
      exact ⟨keep_ins, keep_res⟩
  | opUpdatePing n =>
    simp only [execG, update_ping]
    exact ⟨keep_ins, keep_res⟩

/-- Witness for C9: the invariant applied on a concrete well-formed store
and a concrete pull operation. -/
theorem delivered_at_monotone_witness : offlineIns.delivered_at ≠ "" :=
  (delivered_at_monotone storeOffline (Op.opPullIns (HandlerNode.Id 7) 1 5)
    (by decide)).1 0 offlineIns (by decide) (by decide) offlineIns (by decide)

theorem withSerials_fst_nodup (rows : List TaskRow) :
    ∀ k, ((withSerials k rows).map Prod.fst).Nodup := by
  induction rows with
  | nil =>
    intro k
    simp [withSerials]
  | cons r rs ih =>
    intro k
    rw [withSerials]
    simp only [List.map_cons]
    refine List.nodup_cons.mpr ⟨?_, ih (k + 1)⟩
    intro hc
    obtain ⟨p, hp, hpe⟩ := List.mem_map.mp hc
    have := (withSerials_serial_bounds rs (k + 1) p hp).1
    omega

theorem stampSelectedIns_fst (s : Store) (nd : HandlerNode) (limit : Nat) (t : Int) :
    (stampSelectedIns s nd limit t).map Prod.fst = s.task_ins.map Prod.fst := by
  unfold stampSelectedIns
  rw [List.map_map]
  refine List.map_congr_left ?_
  intro p hp
  by_cases hc : ((pullInsSelected s nd limit).map (fun q => q.2.id)).contains p.2.id
  · show (if ((pullInsSelected s nd limit).map (fun q => q.2.id)).contains p.2.id = true
      then (p.1, stampRow (rfc3339 t) p.2) else p).1 = p.1
    rw [if_pos hc]
  · show (if ((pullInsSelected s nd limit).map (fun q => q.2.id)).contains p.2.id = true
      then (p.1, stampRow (rfc3339 t) p.2) else p).1 = p.1
    rw [if_neg hc]

theorem pullInsSelected_undelivered (s : Store) (nd : HandlerNode) (limit : Nat) :
    ∀ p ∈ pullInsSelected s nd limit, p.2.delivered_at = "" := by
  intro p hp
  unfold pullInsSelected at hp
  have := (List.mem_filter.mp (List.mem_of_mem_take hp)).2
  simp only [Bool.and_eq_true, beq_iff_eq] at this
  exact this.2

theorem SerialsDisj_nil_right (a : List (Nat × TaskRow)) : SerialsDisj a [] := by
  intro p hp q hq
  exact absurd hq (List.not_mem_nil q)

theorem DeliveryInv_sub (s s2 : Store) (outs : List (List (Nat × TaskRow)))
    (h : DeliveryInv s outs)
    (hsub : s2.task_ins.Sublist s.task_ins) (hnext : s.next ≤ s2.next) :
    DeliveryInv s2 (outs ++ [[]]) := by
  refine ⟨?_, ?_, ?_, ?_, ?_⟩
  · intro p hp
    have := h.ins_lt p (hsub.subset hp)
    omega
  · exact h.ins_nodup.sublist (hsub.map Prod.fst)
  · intro o ho p hp
    rcases List.mem_append.mp ho with h1 | h1
    · have := h.outs_lt o h1 p hp
      omega
    · simp only [List.mem_singleton] at h1
      subst h1
      exact absurd hp (List.not_mem_nil p)
  · intro o ho p hp q hq he
    rcases List.mem_append.mp ho with h1 | h1
    · exact h.outs_delivered o h1 p hp q (hsub.subset hq) he
    · simp only [List.mem_singleton] at h1
      subst h1
      exact absurd hp (List.not_mem_nil p)
  · refine List.pairwise_append.mpr ⟨h.outs_disj, List.pairwise_singleton _ _, ?_⟩
    intro a _ b hb
    simp only [List.mem_singleton] at hb
    subst hb
    exact SerialsDisj_nil_right a

theorem DeliveryInv_insert (s : Store) (rows : List TaskRow)
    (outs : List (List (Nat × TaskRow))) (h : DeliveryInv s outs) :
    DeliveryInv
      ⟨s.run, s.node, s.task_ins ++ withSerials s.next rows, s.task_res, s.next + rows.length⟩
      (outs ++ [[]]) := by
  refine ⟨?_, ?_, ?_, ?_, ?_⟩
  · intro p hp
    rcases List.mem_append.mp hp with h1 | h1
    · have := h.ins_lt p h1
      simp only
      omega
    · have := (withSerials_serial_bounds rows s.next p h1).2
      simp only
      omega
  · show ((s.task_ins ++ withSerials s.next rows).map Prod.fst).Nodup
    rw [List.map_append]
    refine List.Nodup.append h.ins_nodup (withSerials_fst_nodup rows s.next) ?_
    intro x hx hx2
    obtain ⟨p, hp, hpe⟩ := List.mem_map.mp hx
    obtain ⟨q, hq, hqe⟩ := List.mem_map.mp hx2
    have h1 := h.ins_lt p hp
    have h2 := (withSerials_serial_bounds rows s.next q hq).1
    omega
  · intro o ho p hp
    rcases List.mem_append.mp ho with h1 | h1
    · have := h.outs_lt o h1 p hp
      simp only
      omega
    · simp only [List.mem_singleton] at h1
      subst h1
      exact absurd hp (List.not_mem_nil p)
  · intro o ho p hp q hq he
    rcases List.mem_append.mp ho with h1 | h1
    · rcases List.mem_append.mp hq with h2 | h2
      · exact h.outs_delivered o h1 p hp q h2 he
      · have hb := (withSerials_serial_bounds rows s.next q h2).1
        have hl := h.outs_lt o h1 p hp
        omega
    · simp only [List.mem_singleton] at h1
      subst h1
      exact absurd hp (List.not_mem_nil p)
  · refine List.pairwise_append.mpr ⟨h.outs_disj, List.pairwise_singleton _ _, ?_⟩
    intro a _ b hb
    simp only [List.mem_singleton] at hb
    subst hb
    exact SerialsDisj_nil_right a

theorem DeliveryInv_pull (s : Store) (nd : HandlerNode) (limit : Nat) (t : Int)
    (outs : List (List (Nat × TaskRow))) (h : DeliveryInv s outs) :
    DeliveryInv { s with task_ins := stampSelectedIns s nd limit t }
      (outs ++ [(pullInsSelected s nd limit).map
        (fun p => (p.1, stampRow (rfc3339 t) p.2))]) := by
  refine ⟨?_, ?_, ?_, ?_, ?_⟩
  · intro p hp
    obtain ⟨q, hq, hqe⟩ := List.mem_map.mp hp
    have hfst : p.1 = q.1 := by
      by_cases hc : ((pullInsSelected s nd limit).map (fun z => z.2.id)).contains q.2.id
      · rw [← hqe, if_pos hc]
      · rw [← hqe, if_neg hc]
    rw [hfst]
    exact h.ins_lt q hq
  · show ((stampSelectedIns s nd limit t).map Prod.fst).Nodup
    rw [stampSelectedIns_fst]
    exact h.ins_nodup
  · intro o ho p hp
    rcases List.mem_append.mp ho with h1 | h1
    · exact h.outs_lt o h1 p hp
    · simp only [List.mem_singleton] at h1
      subst h1
      obtain ⟨q, hq, hqe⟩ := List.mem_map.mp hp
      rw [← hqe]
      exact h.ins_lt q (pullInsSelected_subset s nd limit q hq)
  · intro o ho p hp q hq he
    obtain ⟨q0, hq0, hq0e⟩ := List.mem_map.mp hq
    rcases List.mem_append.mp ho with h1 | h1
    · by_cases hc : ((pullInsSelected s nd limit).map (fun z => z.2.id)).contains q0.2.id
      · rw [← hq0e, if_pos hc]
        exact rfc3339_ne_empty t
      · rw [← hq0e, if_neg hc]
        rw [← hq0e, if_neg hc] at he
        exact h.outs_delivered o h1 p hp q0 hq0 he
    · simp only [List.mem_singleton] at h1
      subst h1
      obtain ⟨z, hz, hze⟩ := List.mem_map.mp hp
      by_cases hc : ((pullInsSelected s nd limit).map (fun w => w.2.id)).contains q0.2.id
      · rw [← hq0e, if_pos hc]
        exact rfc3339_ne_empty t
      · exfalso
        rw [← hq0e, if_neg hc] at he
        have hzi : z ∈ s.task_ins := pullInsSelected_subset s nd limit z hz
        have hfst : q0.1 = z.1 := by
          rw [he, ← hze]
        have : q0 = z := List.inj_on_of_nodup_map h.ins_nodup hq0 hzi hfst
        subst this
        refine hc ?_
        have hmem : q0.2.id ∈ (pullInsSelected s nd limit).map (fun w => w.2.id) :=
          List.mem_map.mpr ⟨q0, hz, rfl⟩
        exact List.elem_eq_true_of_mem hmem
  · refine List.pairwise_append.mpr ⟨h.outs_disj, List.pairwise_singleton _ _, ?_⟩
    intro a ha b hb
    simp only [List.mem_singleton] at hb
    subst hb
    intro p hp q hq
    obtain ⟨z, hz, hze⟩ := List.mem_map.mp hq
    intro he
    have hzi : z ∈ s.task_ins := pullInsSelected_subset s nd limit z hz
    have hfst : z.1 = p.1 := by
      rw [he, ← hze]
    have := h.outs_delivered a ha p hp z hzi hfst
    exact this (pullInsSelected_undelivered s nd limit z hz)

theorem execG_DeliveryInv (s : Store) (op : Op) (outs : List (List (Nat × TaskRow)))
    (h : DeliveryInv s outs) :
    DeliveryInv (execG s op).1 (outs ++ [(execG s op).2]) := by
  cases op with
  | opInsertIns rows =>
    by_cases h1 : rows.isEmpty
    · simp only [execG, insert_task_instructions, h1, if_true]
      exact DeliveryInv_sub s s outs h (List.Sublist.refl _) (le_refl _)
    · by_cases h2 : (!(decide (rows.map (fun r => r.id)).Nodup
          && rows.all (fun r => !(s.task_ins.any (fun p => p.2.id == r.id))))) = true
      · simp only [execG, insert_task_instructions, h1, Bool.false_eq_true, if_false, h2, if_true]
        exact DeliveryInv_sub s s outs h (List.Sublist.refl _) (le_refl _)
      · simp only [execG, insert_task_instructions, h1, Bool.false_eq_true, if_false, h2]
        exact DeliveryInv_insert s rows outs h
  | opPullIns nd limit t =>
    by_cases h1 : ((pullInsSelected s nd limit).map (fun p => p.2.id)).isEmpty
    · simp only [execG, task_instructions_txn, h1, if_true]
      exact DeliveryInv_sub s s outs h (List.Sublist.refl _) (le_refl _)
    · simp only [execG, task_instructions_txn, h1, Bool.false_eq_true, if_false]
      exact DeliveryInv_pull s nd limit t outs h
  | opInsertRes r =>
    by_cases h1 : s.task_res.any (fun p => p.2.id == r.id)
    · simp only [execG, insert_task_result, h1, if_true]
      exact DeliveryInv_sub s s outs h (List.Sublist.refl _) (le_refl _)
    · simp only [execG, insert_task_result, h1, Bool.false_eq_true, if_false]
      exact DeliveryInv_sub s _ outs h (List.Sublist.refl _) (Nat.le_succ _)
  | opPullRes ids limit t =>
    by_cases h1 : (pullResSelected s ids limit).isEmpty
    · simp only [execG, task_results_txn, h1, if_true]
      exact DeliveryInv_sub s s outs h (List.Sublist.refl _) (le_refl _)
    · simp only [execG, task_results_txn, h1, Bool.false_eq_true, if_false]
      exact DeliveryInv_sub s _ outs h (List.Sublist.refl _) (le_refl _)
  | opDeleteTasks ids =>
    by_cases h1 : ids.isEmpty
    · simp only [execG, delete_tasks, h1, if_true]
      exact DeliveryInv_sub s s outs h (List.Sublist.refl _) (le_refl _)
    · simp only [execG, delete_tasks, h1, Bool.false_eq_true, if_false]
      exact DeliveryInv_sub s _ outs h (List.filter_sublist _) (le_refl _)
  | opInsertNode n =>
    by_cases h1 : s.node.any (fun m => m.id == n.id)
    · simp only [execG, insert_node, h1, if_true]
      exact DeliveryInv_sub s s outs h (List.Sublist.refl _) (le_refl _)
    · simp only [execG, insert_node, h1, Bool.false_eq_true, if_false]
      exact DeliveryInv_sub s _ outs h (List.Sublist.refl _) (le_refl _)
  | opDeleteNode i =>
    simp only [execG, delete_node]
    exact DeliveryInv_sub s _ outs h (List.Sublist.refl _) (le_refl _)
  | opInsertRun i =>
    by_cases h1 : s.run.any (fun j => j == i)
    · simp only [execG, insert_run, h1, if_true]
      exact DeliveryInv_sub s s outs h (List.Sublist.refl _) (le_refl _)
    · simp only [execG, insert_run, h1, Bool.false_eq_true, if_false]
      exact DeliveryInv_sub s _ outs h (List.Sublist.refl _) (le_refl _)
  | opUpdatePing n =>
    simp only [execG, update_ping]
    exact DeliveryInv_sub s _ outs h (List.Sublist.refl _) (le_refl _)

theorem execTrace_DeliveryInv (ops : List Op) :
    ∀ (s : Store) (outs : List (List (Nat × TaskRow))), DeliveryInv s outs →
      DeliveryInv (execTrace s ops).1 (outs ++ (execTrace s ops).2) := by
  induction ops with
  | nil =>
    intro s outs h
    simpa [execTrace] using h
  | cons op rest ih =>
    intro s outs h
    have hstep := execG_DeliveryInv s op outs h
    have hrec := ih (execG s op).1 (outs ++ [(execG s op).2]) hstep
    simp only [execTrace]
    rw [show outs ++ ((execG s op).2 :: (execTrace (execG s op).1 rest).2)
        = (outs ++ [(execG s op).2]) ++ (execTrace (execG s op).1 rest).2 by simp]
    exact hrec

/-- C1: at-most-once delivery.  Along any sequence of Store operations
starting from the empty store, the per-operation lists of delivered task
instructions are pairwise disjoint on row identity: a pull selects only rows
with `delivered_at = ""` and stamps them with a non-empty timestamp in the
same transaction, so no instruction is returned by two different
`pull_task_instructions` calls. -/
theorem at_most_once_delivery (ops : List Op) :
    ((execTrace emptyStore ops).2).Pairwise SerialsDisj := by
  have h0 : DeliveryInv emptyStore [] := by
    refine ⟨?_, ?_, ?_, ?_, ?_⟩
    · intro p hp
      exact absurd hp (List.not_mem_nil p)
    · simp [emptyStore]
    · intro o ho
      exact absurd ho (List.not_mem_nil o)
    · intro o ho
      exact absurd ho (List.not_mem_nil o)
    · exact List.Pairwise.nil
  have := execTrace_DeliveryInv ops emptyStore [] h0
  simpa using this.outs_disj

theorem pullResLoop_tbl_fst (stamp : String) (sel : List (Nat × TaskRow)) :
    ∀ (tbl acc : List (Nat × TaskRow)),
      ((pullResLoop stamp tbl sel acc).1).map Prod.fst = tbl.map Prod.fst := by
  induction sel with
  | nil =>
    intro tbl acc
    rfl
  | cons q rest ih =>
    intro tbl acc
    rw [pullResLoop]
    rw [ih]
    rw [List.map_map]
    refine List.map_congr_left ?_
    intro p hp
    rfl

theorem WF_emptyStore : WF emptyStore := by
  refine ⟨?_, ?_, ?_, ?_⟩
  · intro p hp
    exact absurd hp (List.not_mem_nil p)
  · intro p hp
    exact absurd hp (List.not_mem_nil p)
  · simp [emptyStore]
  · simp [emptyStore]

theorem fst_lt_of_map_fst_eq {l l2 : List (Nat × TaskRow)} {bound : Nat}
    (hmap : l2.map Prod.fst = l.map Prod.fst) (hlt : ∀ p ∈ l, p.1 < bound) :
    ∀ p ∈ l2, p.1 < bound := by
  intro p hp
  have hm : p.1 ∈ l2.map Prod.fst := List.mem_map.mpr ⟨p, hp, rfl⟩
  rw [hmap] at hm
  obtain ⟨q, hq, hqe⟩ := List.mem_map.mp hm
  rw [← hqe]
  exact hlt q hq

theorem nodup_append_of_bound (l new : List (Nat × TaskRow)) (bound : Nat)
    (hnd : (l.map Prod.fst).Nodup) (hlt : ∀ p ∈ l, p.1 < bound)
    (hnew : ((new.map Prod.fst)).Nodup) (hge : ∀ p ∈ new, bound ≤ p.1) :
    (((l ++ new).map Prod.fst)).Nodup := by
  rw [List.map_append]
  refine List.Nodup.append hnd hnew ?_
  intro x hx hx2
  obtain ⟨p, hp, hpe⟩ := List.mem_map.mp hx
  obtain ⟨q, hq, hqe⟩ := List.mem_map.mp hx2
  have h1 := hlt p hp
  have h2 := hge q hq
  omega

/-- Every Store operation preserves well-formedness, so `WF` holds in every
state reachable from `emptyStore` (see `WF_emptyStore`). -/
theorem execG_WF (s : Store) (op : Op) (h : WF s) : WF (execG s op).1 := by
  obtain ⟨hins_lt, hres_lt, hins_nd, hres_nd⟩ := h
  cases op with
  | opInsertIns rows =>
    by_cases h1 : rows.isEmpty
    · simp only [execG, insert_task_instructions, h1, if_true]
      exact ⟨hins_lt, hres_lt, hins_nd, hres_nd⟩
    · by_cases h2 : (!(decide (rows.map (fun r => r.id)).Nodup
          && rows.all (fun r => !(s.task_ins.any (fun p => p.2.id == r.id))))) = true
      · simp only [execG, insert_task_instructions, h1, Bool.false_eq_true, if_false, h2, if_true]
        exact ⟨hins_lt, hres_lt, hins_nd, hres_nd⟩
      · simp only [execG, insert_task_instructions, h1, Bool.false_eq_true, if_false, h2]
        refine ⟨?_, ?_, ?_, hres_nd⟩
        · intro p hp
          rcases List.mem_append.mp hp with hm | hm
          · have := hins_lt p hm
            simp only
            omega
          · have := (withSerials_serial_bounds rows s.next p hm).2
            simp only
            omega
        · intro p hp
          have := hres_lt p hp
          simp only
          omega
        · exact nodup_append_of_bound s.task_ins (withSerials s.next rows) s.next hins_nd
            hins_lt (withSerials_fst_nodup rows s.next)
            (fun p hp => (withSerials_serial_bounds rows s.next p hp).1)
  | opPullIns nd limit t =>
    by_cases h1 : ((pullInsSelected s nd limit).map (fun p => p.2.id)).isEmpty
    · simp only [execG, task_instructions_txn, h1, if_true]
      exact ⟨hins_lt, hres_lt, hins_nd, hres_nd⟩
    · simp only [execG, task_instructions_txn, h1, Bool.false_eq_true, if_false]
      refine ⟨?_, hres_lt, ?_, hres_nd⟩
      · exact fst_lt_of_map_fst_eq (stampSelectedIns_fst s nd limit t) hins_lt
      · show ((stampSelectedIns s nd limit t).map Prod.fst).Nodup
        rw [stampSelectedIns_fst]
        exact hins_nd
  | opInsertRes r =>
    by_cases h1 : s.task_res.any (fun p => p.2.id == r.id)
    · simp only [execG, insert_task_result, h1, if_true]
      exact ⟨hins_lt, hres_lt, hins_nd, hres_nd⟩
    · simp only [execG, insert_task_result, h1, Bool.false_eq_true, if_false]
      refine ⟨?_, ?_, hins_nd, ?_⟩
      · intro p hp
        have := hins_lt p hp
        simp only
        omega
      · intro p hp
        rcases List.mem_append.mp hp with hm | hm
        · have := hres_lt p hm
          simp only
          omega
        · simp only [List.mem_singleton] at hm
          subst hm
          simp only
          omega
      · refine nodup_append_of_bound s.task_res [(s.next, r)] s.next hres_nd hres_lt ?_ ?_
        · simp
        · intro p hp
          simp only [List.mem_singleton] at hp
          subst hp
          exact le_refl _
  | opPullRes ids limit t =>
    by_cases h1 : (pullResSelected s ids limit).isEmpty
    · simp only [execG, task_results_txn, h1, if_true]
      exact ⟨hins_lt, hres_lt, hins_nd, hres_nd⟩
    · simp only [execG, task_results_txn, h1, Bool.false_eq_true, if_false]
      refine ⟨hins_lt, ?_, hins_nd, ?_⟩
      · exact fst_lt_of_map_fst_eq
          (pullResLoop_tbl_fst (rfc3339 t) (pullResSelected s ids limit) s.task_res []) hres_lt
      · show (((pullResLoop (rfc3339 t) s.task_res (pullResSelected s ids limit) []).1).map
          Prod.fst).Nodup
        rw [pullResLoop_tbl_fst]
        exact hres_nd
  | opDeleteTasks ids =>
    by_cases h1 : ids.isEmpty
    · simp only [execG, delete_tasks, h1, if_true]
      exact ⟨hins_lt, hres_lt, hins_nd, hres_nd⟩
    · simp only [execG, delete_tasks, h1, Bool.false_eq_true, if_false]
      refine ⟨?_, ?_, ?_, ?_⟩
      · intro p hp
        exact hins_lt p (List.mem_of_mem_filter hp)
      · intro p hp
        exact hres_lt p (List.mem_of_mem_filter hp)
      · exact hins_nd.sublist ((List.filter_sublist _).map Prod.fst)
      · exact hres_nd.sublist ((List.filter_sublist _).map Prod.fst)
  | opInsertNode n =>
    by_cases h1 : s.node.any (fun m => m.id == n.id)
    · simp only [execG, insert_node, h1, if_true]
      exact ⟨hins_lt, hres_lt, hins_nd, hres_nd⟩
    · simp only [execG, insert_node, h1, Bool.false_eq_true, if_false]
      exact ⟨hins_lt, hres_lt, hins_nd, hres_nd⟩
  | opDeleteNode i =>
    simp only [execG, delete_node]
    exact ⟨hins_lt, hres_lt, hins_nd, hres_nd⟩
  | opInsertRun i =>
    by_cases h1 : s.run.any (fun j => j == i)
    · simp only [execG, insert_run, h1, if_true]
      exact ⟨hins_lt, hres_lt, hins_nd, hres_nd⟩
    · simp only [execG, insert_run, h1, Bool.false_eq_true, if_false]
      exact ⟨hins_lt, hres_lt, hins_nd, hres_nd⟩
  | opUpdatePing n =>
    simp only [execG, update_ping]
    exact ⟨hins_lt, hres_lt, hins_nd, hres_nd⟩
